import Mathlib

/-
A shallow embedding of src/graphql.go, a low-level Go GraphQL client.
Pure data flow is modelled directly; the HTTP transport and the JSON
decoder for the response body are modelled as an oracle argument to Run,
since they are standard-library collaborators of the code, not code of
this repository.
-/

set_option maxHeartbeats 1000000
set_option maxRecDepth 4096

namespace GraphQL

/-- JSON values: the model of Go interface values handled by encoding/json,
used for variable values and for the decoded data field. -/
inductive Json where
  | null
  | bool (b : Bool)
  | num (n : Int)
  | str (s : String)
  | arr (elems : List Json)
  | obj (fields : List (String × Json))

/-- src/graphql.go, type File: a file to upload. The io.Reader byte source R
is modelled as the sequence of bytes it yields. -/
structure File where
  Field : String
  Name : String
  R : List Nat

/-- src/graphql.go, type Error: one GraphQL error; Locations are the
line and column pairs. -/
structure Error where
  Message : String
  Locations : List (Nat × Nat)
  Path : List Json
  Extensions : List (String × Json)

/-- src/graphql.go, type Errors: a list of GraphQL errors. -/
abbrev Errors := List Error

/-- src/graphql.go, method Error on type Error (lines 388-390). -/
def Error.render (e : Error) : String := "graphql: " ++ e.Message

/-- src/graphql.go, method Error on type Errors (lines 396-407): the fixed
string "no error" for an empty list, otherwise the member messages joined
by the separator " | " (strings.Join) behind the "graphql: " marker. -/
def Errors.render (l : Errors) : String :=
  if l.length = 0 then "no error"
  else "graphql: " ++ String.intercalate " | " (l.map Error.Message)

/-- The variables object placed in the upload-spec operations field
(src/graphql.go lines 303-310): an empty object, a single null file
placeholder, or a list of null file placeholders, one per file. -/
inductive SpecVariables where
  | emptyVariables
  | fileVariables
  | filesVariables (count : Nat)

/-- src/graphql.go, type multipartRequestSpecQuery (lines 294-300), with the
nested Operations struct flattened into its two fields. Map is a Go map
from form field name to the list of placeholder paths, modelled as an
association list with map-assignment overwrite semantics (mapInsert). -/
structure multipartRequestSpecQuery where
  OperationsQuery : String
  OperationsVariables : SpecVariables
  Map : List (String × List String)

/-- The serialized request body, one constructor per encoding strategy:
plain JSON (runWithJSON), classic multipart form (runWithPostFields; on the
wire the variables field is omitted when vars is empty), or the upload-spec
multipart body (runMultipartRequestSpec, which also writes one legacy text
field per file). -/
inductive WireBody where
  | jsonBody (query : String) (vars : List (String × Json))
  | multipartForm (query : String) (vars : List (String × Json)) (files : List File)
  | multipartSpec (query : multipartRequestSpecQuery) (files : List File)

/-- src/graphql.go, type Request (lines 415-426). Header is the Go
http.Header, a map from key to list of values, modelled as an association
list with distinct keys. body and contentType are the two staging fields
written by the multipart strategies; the initially empty bytes.Buffer is
modelled as body = none. -/
structure Request where
  q : String
  vars : List (String × Json)
  files : List File
  Header : List (String × List String)
  body : Option WireBody
  contentType : String

/-- src/graphql.go, type Client (lines 47-62). The HTTP transport and the
Log callback live outside the embedding: the transport is an oracle
argument of Run, and logging has no observable effect on the data flow. -/
structure Client where
  endpoint : String
  useMultipartForm : Bool
  useMultipartRequestSpec : Bool
  closeReq : Bool

/-- Go http.Header.Set: replace the values of a key by a one-element list;
keys are unique in the header map. -/
def headerSet : List (String × List String) → String → String → List (String × List String)
  | [], k, v => [(k, [v])]
  | (k', vs) :: t, k, v => if k' = k then (k, [v]) :: t else (k', vs) :: headerSet t k v

/-- Go http.Header.Add: append a value to the value list of a key. -/
def headerAdd : List (String × List String) → String → String → List (String × List String)
  | [], k, v => [(k, [v])]
  | (k', vs) :: t, k, v => if k' = k then (k', vs ++ [v]) :: t else (k', vs) :: headerAdd t k v

/-- Add every value of one caller header key in order. -/
def headerAddValues : List (String × List String) → String → List String → List (String × List String)
  | h, _, [] => h
  | h, k, v :: vs => headerAddValues (headerAdd h k v) k vs

/-- The header-merging loop shared by runWithJSON (lines 128-132) and
makeRequest (lines 265-269): Add every value of every caller header. -/
def headerAddAll : List (String × List String) → List (String × List String) → List (String × List String)
  | h, [] => h
  | h, (k, vs) :: rest => headerAddAll (headerAddValues h k vs) rest

/-- All values an outgoing header map holds for a key. -/
def allValues : List (String × List String) → String → List String
  | [], _ => []
  | (k', vs) :: t, k => if k' = k then vs ++ allValues t k else allValues t k

/-- The first value an outgoing header map holds for a key. -/
def firstValue : List (String × List String) → String → Option String
  | [], _ => none
  | (k', vs) :: t, k => if k' = k then vs.head? else firstValue t k

/-- Header construction shared by runWithJSON and makeRequest: Set the
Content-Type header, Set the Accept header, then Add all caller headers. -/
def buildHeaders (ct : String) (reqHeader : List (String × List String)) :
    List (String × List String) :=
  headerAddAll (headerSet (headerSet [] "Content-Type" ct) "Accept"
    "application/json; charset=utf-8") reqHeader

/-- One outgoing HTTP request as built by the client. -/
structure HttpRequest where
  methodName : String
  url : String
  headers : List (String × List String)
  body : Option WireBody
  closeReq : Bool

/-- src/graphql.go, type graphResponse (lines 409-412): the decoded response
envelope. Data is decoded directly into the result target of the caller. -/
structure graphResponse where
  Data : Json
  Errors : Errors

/-- Outcome of one HTTP exchange. This is the oracle for the network and for
encoding/json on the response body: transport failure (httpClient.Do error),
body read failure (io.Copy error), or a response carrying a status code and
the result of decoding the body as the envelope (none when the body does not
decode). -/
inductive TransportOutcome where
  | failure
  | readFailed
  | response (status : Nat) (decoded : Option graphResponse)

abbrev Transport := HttpRequest → TransportOutcome

/-- The errors Run can return, one constructor per return site of the Go
code. non200Status carries only the status code: the body is not surfaced. -/
inductive RunError where
  | ctxCanceled
  | filesWithoutMultipart
  | varsNotSupported
  | transportFailure
  | readBodyFailure
  | non200Status (status : Nat)
  | decodeFailed
  | graphErrors (errs : Errors)

/-- The three encoding strategies of the client. -/
inductive Strategy where
  | postFields
  | multipartSpec
  | json

/-- Observable result of one Run call: the returned error (none on success),
the final content of the result target of the caller (some of the decoded
Data once decoding succeeded, not reverted afterwards), the outgoing HTTP
requests performed, the final state of the Request, and which encoding
strategy ran (none when Run returned before dispatch). -/
structure RunOutcome where
  error : Option RunError
  target : Option Json
  sent : List HttpRequest
  finalReq : Request
  strategy : Option Strategy

/-- The response handling shared by runWithJSON (lines 145-154) and
makeRequest (lines 282-291), textually identical in the source: a decode
failure yields the non-200 error exactly when the status differs from 200
and the decode error otherwise; a decoded envelope with a non-empty Errors
list is returned as the error of the call, and the decoded Data stays in
the result target either way. -/
def processResponse : TransportOutcome → Option RunError × Option Json
  | .failure => (some .transportFailure, none)
  | .readFailed => (some .readBodyFailure, none)
  | .response status none =>
      if status ≠ 200 then (some (.non200Status status), none)
      else (some .decodeFailed, none)
  | .response _ (some gr) =>
      if gr.Errors.isEmpty then (none, some gr.Data)
      else (some (.graphErrors gr.Errors), some gr.Data)

/-- Go map assignment m[k] = v: overwrite the entry of k when present,
append a new entry otherwise. -/
def mapInsert : List (String × List String) → String → List String → List (String × List String)
  | [], k, v => [(k, v)]
  | (k', v') :: t, k, v => if k' = k then (k, v) :: t else (k', v') :: mapInsert t k v

/-- Go map lookup m[k]. -/
def lookupMap : List (String × List String) → String → Option (List String)
  | [], _ => none
  | (k', v') :: t, k => if k' = k then some v' else lookupMap t k

/-- Go for-range over a slice, paired with the running index. -/
def enumerate : Nat → List File → List (Nat × File)
  | _, [] => []
  | i, f :: fs => (i, f) :: enumerate (i + 1) fs

/-- The map-building loop of the many-files case (src/graphql.go lines
330-333): one map assignment per file, keyed on the form field name and
holding the placeholder path for the running index. -/
def buildSpecMap : List (String × List String) → List (Nat × File) → List (String × List String)
  | m, [] => m
  | m, (i, f) :: rest =>
      buildSpecMap (mapInsert m f.Field ["variables.files." ++ toString i]) rest

/-- src/graphql.go, fillMultipartRequestSpecQuery (lines 302-337). The Go
switch on the file count selects, in order: zero files gives an empty
variables object and an empty map; exactly one file gives the single null
placeholder and the map entry for the path variables.file; two or more
files give the list of null placeholders and one map assignment per file
on the path variables.files.index. -/
def fillMultipartRequestSpecQuery (req : Request) : multipartRequestSpecQuery :=
  if req.files.length = 0 then
    ⟨req.q, .emptyVariables, []⟩
  else if req.files.length = 1 then
    ⟨req.q, .fileVariables,
      mapInsert [] (req.files.headD ⟨"", "", []⟩).Field ["variables.file"]⟩
  else
    ⟨req.q, .filesVariables req.files.length, buildSpecMap [] (enumerate 0 req.files)⟩

/-- src/graphql.go, runWithJSON (lines 104-155): the JSON body carries the
query and the variables; headers are Content-Type and Accept and then the
caller headers; one POST is made and the response is processed. -/
def runWithJSON (c : Client) (t : Transport) (req : Request) : RunOutcome :=
  let r : HttpRequest :=
    ⟨"POST", c.endpoint,
      buildHeaders "application/json; charset=utf-8" req.Header,
      some (WireBody.jsonBody req.q req.vars), c.closeReq⟩
  let p := processResponse (t r)
  ⟨p.1, p.2, [r], req, some .json⟩

/-- src/graphql.go, makeRequest (lines 254-292): POST the staged body with
the staged content type, the Accept header and the caller headers, then
process the response. The strategy tag is filled by the caller. -/
def makeRequest (c : Client) (t : Transport) (req : Request) : RunOutcome :=
  let r : HttpRequest :=
    ⟨"POST", c.endpoint, buildHeaders req.contentType req.Header, req.body, c.closeReq⟩
  let p := processResponse (t r)
  ⟨p.1, p.2, [r], req, none⟩

/-- src/graphql.go, runWithPostFields (lines 157-193): build the classic
multipart form body, stage it and the boundary content type on the Request,
then delegate to makeRequest. The multipart boundary, random in Go, is the
boundary argument of the model. -/
def runWithPostFields (c : Client) (t : Transport) (boundary : String) (req : Request) :
    RunOutcome :=
  let req' := { req with
    body := some (WireBody.multipartForm req.q req.vars req.files),
    contentType := "multipart/form-data; boundary=" ++ boundary }
  { makeRequest c t req' with strategy := some .postFields }

/-- src/graphql.go, runMultipartRequestSpec (lines 195-252): reject the call
when any variable is set, otherwise build the upload-spec body from
fillMultipartRequestSpecQuery, stage it, and delegate to makeRequest. -/
def runMultipartRequestSpec (c : Client) (t : Transport) (boundary : String) (req : Request) :
    RunOutcome :=
  if !req.vars.isEmpty then
    ⟨some .varsNotSupported, none, [], req, some .multipartSpec⟩
  else
    let req' := { req with
      body := some (WireBody.multipartSpec (fillMultipartRequestSpecQuery req) req.files),
      contentType := "multipart/form-data; boundary=" ++ boundary }
    { makeRequest c t req' with strategy := some .multipartSpec }

/-- src/graphql.go, Run (lines 86-102): the context check, the file
pre-flight check, then the dispatch on the mode flags and file presence.
ctxDone models whether the context of the caller is already cancelled at
entry. -/
def Run (c : Client) (t : Transport) (boundary : String) (ctxDone : Bool) (req : Request) :
    RunOutcome :=
  if ctxDone then ⟨some .ctxCanceled, none, [], req, none⟩
  else if !req.files.isEmpty && !(c.useMultipartForm || c.useMultipartRequestSpec) then
    ⟨some .filesWithoutMultipart, none, [], req, none⟩
  else if c.useMultipartForm then runWithPostFields c t boundary req
  else if c.useMultipartRequestSpec && !req.files.isEmpty then
    runMultipartRequestSpec c t boundary req
  else runWithJSON c t req

/-! Helper lemmas -/

theorem isEmpty_false_of_ne_nil {α : Type _} {l : List α} (h : l ≠ []) :
    l.isEmpty = false := by
  cases l with
  | nil => exact absurd rfl h
  | cons a t => rfl

/-! Concrete values used by witnesses and counterexamples -/

/-- A client with no multipart mode enabled. -/
def noModeClient : Client := ⟨"http://e", false, false, false⟩

/-- A client with only the upload-spec mode enabled. -/
def specModeClient : Client := ⟨"http://e", false, true, false⟩

/-- A request with no variables, no files and no custom headers. -/
def emptyReq : Request := ⟨"q", [], [], [], none, ""⟩

/-- A transport whose send always fails. -/
def failTransport : Transport := fun _ => .failure

def fileA : File := ⟨"a", "x", []⟩

/-- A request carrying one file and nothing else. -/
def oneFileReq : Request := ⟨"q", [], [fileA], [], none, ""⟩

/-- A request carrying one variable and one file. -/
def varFileReq : Request := ⟨"q", [("k", Json.str "v")], [fileA], [], none, ""⟩

/-! Claim theorems -/

/-- Claim C10: rendering an empty Errors list returns the fixed string
"no error" rather than an empty message or a failure. -/
theorem errors_empty_message : Errors.render ([] : Errors) = "no error" := rfl

/-- Claim C8: for every non-empty Errors list the rendered message is the
member messages, in the order they appear in the list, joined by the fixed
separator " | " behind the fixed "graphql: " marker. -/
theorem errors_message_join (l : Errors) (h : l ≠ []) :
    Errors.render l = "graphql: " ++ String.intercalate " | " (l.map Error.Message) := by
  have hl : l.length ≠ 0 := by simpa using h
  simp [Errors.render, hl]

/-- Witness for claim C8 at a concrete two-error list. -/
theorem errors_message_join_witness :
    Errors.render [⟨"boom", [], [], []⟩, ⟨"bad", [], [], []⟩] = "graphql: boom | bad" := by
  rw [errors_message_join [⟨"boom", [], [], []⟩, ⟨"bad", [], [], []⟩] (by simp)]
  rfl

/-- Claim C4: a Run call on a request with at least one file when neither
multipart-form mode nor upload-spec mode is enabled returns the
configuration error and performs no network call. -/
theorem run_files_require_multipart (c : Client) (t : Transport) (b : String) (req : Request)
    (hf : req.files ≠ []) (h1 : c.useMultipartForm = false)
    (h2 : c.useMultipartRequestSpec = false) :
    (Run c t b false req).error = some .filesWithoutMultipart ∧
    (Run c t b false req).sent = [] := by
  have hfe := isEmpty_false_of_ne_nil hf
  simp [Run, hfe, h1, h2]

/-- Witness for claim C4: one file, no mode enabled. -/
theorem run_files_require_multipart_witness :
    (Run noModeClient failTransport "b" false oneFileReq).error
        = some RunError.filesWithoutMultipart ∧
    (Run noModeClient failTransport "b" false oneFileReq).sent = [] :=
  run_files_require_multipart noModeClient failTransport "b" oneFileReq
    (by simp [oneFileReq]) rfl rfl

/-- Claim C5: a Run call under upload-spec mode (multipart-form mode not
enabled) with at least one variable and at least one file returns the
configuration error and performs no network call. -/
theorem run_specmode_vars_error (c : Client) (t : Transport) (b : String) (req : Request)
    (h1 : c.useMultipartForm = false) (h2 : c.useMultipartRequestSpec = true)
    (hf : req.files ≠ []) (hv : req.vars ≠ []) :
    (Run c t b false req).error = some .varsNotSupported ∧
    (Run c t b false req).sent = [] := by
  have hfe := isEmpty_false_of_ne_nil hf
  have hve := isEmpty_false_of_ne_nil hv
  simp [Run, runMultipartRequestSpec, hfe, hve, h1, h2]

/-- Witness for claim C5: one variable and one file under upload-spec mode. -/
theorem run_specmode_vars_error_witness :
    (Run specModeClient failTransport "b" false varFileReq).error
        = some RunError.varsNotSupported ∧
    (Run specModeClient failTransport "b" false varFileReq).sent = [] :=
  run_specmode_vars_error specModeClient failTransport "b" varFileReq
    rfl rfl (by simp [varFileReq]) (by simp [varFileReq])

/-- Follows the wording of the spec, section 4.2, for refinement claim C2:
the strategy is selected from configuration and file presence with priority
multipart-form mode, then upload-spec mode when files are present, then
plain JSON. -/
def specSelectedStrategy (c : Client) (req : Request) : Strategy :=
  if c.useMultipartForm then .postFields
  else if c.useMultipartRequestSpec && !req.files.isEmpty then .multipartSpec
  else .json

/-- Claim C2: every Run call that passes the pre-flight checks runs exactly
one encoding strategy, the one selected deterministically from the
configuration and the presence of files with priority multipart-form mode,
then upload-spec mode with files present, then plain JSON; in particular
upload-spec mode with zero files runs the plain JSON strategy. -/
theorem run_strategy_selection (c : Client) (t : Transport) (b : String) (req : Request)
    (h : req.files = [] ∨ c.useMultipartForm = true ∨ c.useMultipartRequestSpec = true) :
    (Run c t b false req).strategy = some (specSelectedStrategy c req) := by
  cases hm : c.useMultipartForm with
  | true =>
      cases hv : req.vars.isEmpty <;>
        simp [Run, runWithPostFields, makeRequest, specSelectedStrategy, hm, hv]
  | false =>
    cases hs : c.useMultipartRequestSpec with
    | false =>
        have hfe : req.files = [] := by
          rcases h with h | h | h
          · exact h
          · rw [hm] at h; cases h
          · rw [hs] at h; cases h
        simp [Run, runWithJSON, specSelectedStrategy, hm, hs, hfe]
    | true =>
        cases hfe : req.files.isEmpty with
        | true => simp [Run, runWithJSON, specSelectedStrategy, hm, hs, hfe]
        | false =>
            cases hv : req.vars.isEmpty <;>
              simp [Run, runMultipartRequestSpec, makeRequest, specSelectedStrategy,
                hm, hs, hfe, hv]

/-- Witness for claim C2: upload-spec mode with zero files selects the plain
JSON strategy. -/
theorem run_strategy_selection_witness :
    (Run specModeClient failTransport "b" false emptyReq).strategy = some Strategy.json :=
  run_strategy_selection specModeClient failTransport "b" emptyReq (Or.inl rfl)

/-- Claim C9: every Run call leaves the caller-visible fields of the Request
(query, variables, files, headers) unchanged, and the two staging fields
body and contentType are unchanged unless one of the two multipart
strategies ran. -/
theorem run_request_frame (c : Client) (t : Transport) (b : String) (ctxDone : Bool)
    (req : Request) :
    ((Run c t b ctxDone req).finalReq.q = req.q ∧
      (Run c t b ctxDone req).finalReq.vars = req.vars ∧
      (Run c t b ctxDone req).finalReq.files = req.files ∧
      (Run c t b ctxDone req).finalReq.Header = req.Header) ∧
    ((Run c t b ctxDone req).strategy = some Strategy.postFields ∨
      (Run c t b ctxDone req).strategy = some Strategy.multipartSpec ∨
      ((Run c t b ctxDone req).finalReq.body = req.body ∧
        (Run c t b ctxDone req).finalReq.contentType = req.contentType)) := by
  cases ctxDone with
  | true => simp [Run]
  | false =>
    cases hm : c.useMultipartForm <;>
      cases hs : c.useMultipartRequestSpec <;>
        cases hfe : req.files.isEmpty <;>
          cases hv : req.vars.isEmpty <;>
            simp [Run, runWithJSON, runWithPostFields, runMultipartRequestSpec,
              makeRequest, hm, hs, hfe, hv]

/-- Claim C1: when the HTTP exchange succeeds and the body decodes as the
envelope with a non-empty errors sequence, Run returns that error sequence
as the error of the call — whatever the HTTP status, 200 included — and the
decoded Data stays visible in the result target of the caller. -/
theorem run_surfaces_graphql_errors (c : Client) (b : String) (req : Request)
    (status : Nat) (gr : graphResponse)
    (h1 : req.files = [] ∨ c.useMultipartForm = true ∨ c.useMultipartRequestSpec = true)
    (h2 : c.useMultipartForm = false → c.useMultipartRequestSpec = true →
      req.files ≠ [] → req.vars = [])
    (herr : gr.Errors ≠ []) :
    (Run c (fun _ => .response status (some gr)) b false req).error
        = some (.graphErrors gr.Errors) ∧
    (Run c (fun _ => .response status (some gr)) b false req).target = some gr.Data := by
  have herrE : gr.Errors.isEmpty = false := isEmpty_false_of_ne_nil herr
  cases hm : c.useMultipartForm with
  | true => simp [Run, runWithPostFields, makeRequest, processResponse, hm, herrE]
  | false =>
    cases hs : c.useMultipartRequestSpec with
    | false =>
        have hfe : req.files = [] := by
          rcases h1 with h | h | h
          · exact h
          · rw [hm] at h; cases h
          · rw [hs] at h; cases h
        simp [Run, runWithJSON, processResponse, hm, hs, hfe, herrE]
    | true =>
        cases hfe : req.files.isEmpty with
        | true => simp [Run, runWithJSON, processResponse, hm, hs, hfe, herrE]
        | false =>
            have hv : req.vars = [] :=
              h2 hm hs (by intro hn; rw [hn] at hfe; cases hfe)
            simp [Run, runMultipartRequestSpec, makeRequest, processResponse,
              hm, hs, hfe, hv, herrE]

/-- A decoded envelope with null data and a single error saying bad. -/
def grBad : graphResponse := ⟨Json.null, [⟨"bad", [], [], []⟩]⟩

/-- Witness for claim C1: HTTP 200 with an envelope carrying one error. -/
theorem run_surfaces_graphql_errors_witness :
    (Run noModeClient (fun _ => .response 200 (some grBad)) "b" false emptyReq).error
        = some (RunError.graphErrors [⟨"bad", [], [], []⟩]) ∧
    (Run noModeClient (fun _ => .response 200 (some grBad)) "b" false emptyReq).target
        = some Json.null :=
  run_surfaces_graphql_errors noModeClient "b" emptyReq 200 grBad
    (Or.inl rfl) (fun _ _ _ => rfl) (by simp [grBad])

/-- Counterexample for claim C6: a response body that fails to decode under
the success status 201 — a 2xx status, where the claim demands the generic
decode error — makes Run return the non-200-status error instead, because
the code compares the status against exactly 200. -/
theorem non200_counterexample :
    (Run noModeClient (fun _ => .response 201 none) "b" false emptyReq).error
        = some (RunError.non200Status 201) ∧
    (Run noModeClient (fun _ => .response 201 none) "b" false emptyReq).error
        ≠ some RunError.decodeFailed := by
  refine ⟨rfl, ?_⟩
  intro h
  rw [show (Run noModeClient (fun _ => .response 201 none) "b" false emptyReq).error
      = some (RunError.non200Status 201) from rfl] at h
  simp at h

/-- Claim C6 amended: when the response body fails to decode as the
envelope, the error of the call is the distinct non-200-status error
exactly when the HTTP status differs from 200 — not: when it is outside the
2xx success range — and the generic decode error when the status is exactly
200. The non-200-status error carries only the status code, never the
response body. -/
theorem non200_amended (c : Client) (b : String) (req : Request) (status : Nat)
    (h1 : req.files = [] ∨ c.useMultipartForm = true ∨ c.useMultipartRequestSpec = true)
    (h2 : c.useMultipartForm = false → c.useMultipartRequestSpec = true →
      req.files ≠ [] → req.vars = []) :
    ((Run c (fun _ => .response status none) b false req).error
        = some (.non200Status status) ↔ status ≠ 200) ∧
    (status = 200 →
      (Run c (fun _ => .response status none) b false req).error = some .decodeFailed) := by
  have hrun : (Run c (fun _ => .response status none) b false req).error
      = (processResponse (.response status none)).1 := by
    cases hm : c.useMultipartForm with
    | true => simp [Run, runWithPostFields, makeRequest, hm]
    | false =>
      cases hs : c.useMultipartRequestSpec with
      | false =>
          have hfe : req.files = [] := by
            rcases h1 with h | h | h
            · exact h
            · rw [hm] at h; cases h
            · rw [hs] at h; cases h
          simp [Run, runWithJSON, hm, hs, hfe]
      | true =>
          cases hfe : req.files.isEmpty with
          | true => simp [Run, runWithJSON, hm, hs, hfe]
          | false =>
              have hv : req.vars = [] :=
                h2 hm hs (by intro hn; rw [hn] at hfe; cases hfe)
              simp [Run, runMultipartRequestSpec, makeRequest, hm, hs, hfe, hv]
  rw [hrun]
  by_cases hst : status = 200 <;> simp [processResponse, hst]

/-- Witness for claim C6 amended: status 500 with an undecodable body gives
the non-200-status error. -/
theorem non200_amended_witness :
    (Run noModeClient (fun _ => .response 500 none) "b" false emptyReq).error
        = some (RunError.non200Status 500) := by
  have h := non200_amended noModeClient "b" emptyReq 500 (Or.inl rfl) (fun _ _ _ => rfl)
  exact h.1.mpr (by decide)

/-! Map lemmas for the upload-spec placeholder map -/

theorem lookup_mapInsert_self (m : List (String × List String)) (k : String) (v : List String) :
    lookupMap (mapInsert m k v) k = some v := by
  induction m with
  | nil => simp [mapInsert, lookupMap]
  | cons p t ih =>
      obtain ⟨k', v'⟩ := p
      by_cases h : k' = k
      · simp [mapInsert, lookupMap, h]
      · simp [mapInsert, lookupMap, h, ih]

theorem lookup_mapInsert_ne (m : List (String × List String)) (kin kq : String)
    (v : List String) (h : kq ≠ kin) :
    lookupMap (mapInsert m kin v) kq = lookupMap m kq := by
  have h2 : ¬(kin = kq) := fun e => h e.symm
  induction m with
  | nil => simp [mapInsert, lookupMap, h2]
  | cons p t ih =>
      obtain ⟨ke, ve⟩ := p
      by_cases he : ke = kin
      · simp [mapInsert, lookupMap, he, h2]
      · simp [mapInsert, lookupMap, he, ih]

theorem buildSpecMap_notmem (ps : List (Nat × File)) (m : List (String × List String))
    (k : String) (h : ∀ p ∈ ps, (p.2).Field ≠ k) :
    lookupMap (buildSpecMap m ps) k = lookupMap m k := by
  induction ps generalizing m with
  | nil => rfl
  | cons p rest ih =>
      obtain ⟨i, f⟩ := p
      have hf : f.Field ≠ k := h (i, f) (by simp)
      have hrest : ∀ p ∈ rest, (p.2).Field ≠ k := fun p hp => h p (by simp [hp])
      rw [buildSpecMap, ih _ hrest]
      exact lookup_mapInsert_ne _ _ _ _ (fun e => hf e.symm)

theorem buildSpecMap_append (ps qs : List (Nat × File)) (m : List (String × List String)) :
    buildSpecMap m (ps ++ qs) = buildSpecMap (buildSpecMap m ps) qs := by
  induction ps generalizing m with
  | nil => rfl
  | cons p rest ih =>
      obtain ⟨i, f⟩ := p
      rw [List.cons_append, buildSpecMap, buildSpecMap, ih]

theorem enumerate_append (l1 l2 : List File) (i : Nat) :
    enumerate i (l1 ++ l2) = enumerate i l1 ++ enumerate (i + l1.length) l2 := by
  induction l1 generalizing i with
  | nil => simp [enumerate]
  | cons f t ih =>
      have hidx : i + (t.length + 1) = i + 1 + t.length := by omega
      simp only [List.cons_append, enumerate, List.length_cons, List.append_eq, hidx]
      rw [ih]

theorem enumerate_mem_snd (i : Nat) (l : List File) (p : Nat × File)
    (hp : p ∈ enumerate i l) : p.2 ∈ l := by
  induction l generalizing i with
  | nil => cases hp
  | cons f t ih =>
      rw [enumerate] at hp
      rcases List.mem_cons.mp hp with h | h
      · subst h; simp
      · exact List.mem_cons_of_mem _ (ih _ h)

/-- A request carrying two files that share the form field name. -/
def dupFieldReq : Request := ⟨"q", [], [⟨"a", "x", []⟩, ⟨"a", "y", []⟩], [], none, ""⟩

/-- Counterexample for claim C3: with two files that share the form field
name "a", the generated map holds only the entry of the last file, the path
variables.files.1; the entry variables.files.0 the claim demands for the
first file is absent, because Go map assignment overwrites the key. -/
theorem specmap_counterexample :
    lookupMap (fillMultipartRequestSpecQuery dupFieldReq).Map "a"
        = some ["variables.files.1"] ∧
    lookupMap (fillMultipartRequestSpecQuery dupFieldReq).Map "a"
        ≠ some ["variables.files.0"] := by
  refine ⟨rfl, ?_⟩
  intro h
  rw [show lookupMap (fillMultipartRequestSpecQuery dupFieldReq).Map "a"
      = some ["variables.files.1"] from rfl] at h
  simp at h

/-- Claim C3 amended: for exactly one file the generated map takes the form
field name of the file to the one-element path list variables.file; for two
or more files, every file i whose form field name does not recur at a later
declaration position gets the map entry from its field name to the path
variables.files.i with i the zero-based declaration index; a repeated field
name keeps only the entry of its last occurrence. -/
theorem specmap_amended (req : Request) :
    (∀ f, req.files = [f] →
      lookupMap (fillMultipartRequestSpecQuery req).Map f.Field = some ["variables.file"]) ∧
    (∀ l1 f l2, req.files = l1 ++ f :: l2 → 2 ≤ req.files.length →
      (∀ g ∈ l2, g.Field ≠ f.Field) →
      lookupMap (fillMultipartRequestSpecQuery req).Map f.Field
        = some ["variables.files." ++ toString l1.length]) := by
  constructor
  · intro f hf
    simp [fillMultipartRequestSpecQuery, hf, lookup_mapInsert_self]
  · intro l1 f l2 hsplit hlen hnodup
    have h0 : ¬(req.files.length = 0) := by omega
    have h1 : ¬(req.files.length = 1) := by omega
    have hmap : (fillMultipartRequestSpecQuery req).Map
        = buildSpecMap [] (enumerate 0 req.files) := by
      simp [fillMultipartRequestSpecQuery, h0, h1]
    rw [hmap, hsplit, enumerate_append]
    simp only [enumerate, Nat.zero_add]
    rw [buildSpecMap_append, buildSpecMap]
    have hni : ∀ p ∈ enumerate (l1.length + 1) l2, (p.2).Field ≠ f.Field :=
      fun p hp => hnodup p.2 (enumerate_mem_snd _ _ _ hp)
    rw [buildSpecMap_notmem _ _ _ hni, lookup_mapInsert_self]

/-- A request carrying two files with distinct form field names. -/
def twoFileReq : Request := ⟨"q", [], [⟨"a", "x", []⟩, ⟨"b", "y", []⟩], [], none, ""⟩

/-- Witness for claim C3 amended: two files with distinct field names map
the first field name to variables.files.0. -/
theorem specmap_amended_witness :
    lookupMap (fillMultipartRequestSpecQuery twoFileReq).Map "a"
        = some ["variables.files.0"] := by
  have h := (specmap_amended twoFileReq).2 [] ⟨"a", "x", []⟩ [⟨"b", "y", []⟩]
    rfl (by decide) (by decide)
  exact h

/-! Header lemmas -/

theorem firstValue_headerAdd (h : List (String × List String)) (k ka va v0 : String)
    (hf : firstValue h k = some v0) :
    firstValue (headerAdd h ka va) k = some v0 := by
  induction h with
  | nil => simp [firstValue] at hf
  | cons p t ih =>
      obtain ⟨pk, pvs⟩ := p
      rw [headerAdd]
      by_cases hpk : pk = ka
      · rw [if_pos hpk]
        rw [firstValue] at hf ⊢
        by_cases hk : pk = k
        · rw [if_pos hk] at hf ⊢
          cases pvs with
          | nil => simp at hf
          | cons a rest => simpa using hf
        · rw [if_neg hk] at hf ⊢; exact hf
      · rw [if_neg hpk]
        rw [firstValue] at hf ⊢
        by_cases hk : pk = k
        · rw [if_pos hk] at hf ⊢; exact hf
        · rw [if_neg hk] at hf ⊢; exact ih hf

theorem firstValue_headerAddValues (vs : List String) (h : List (String × List String))
    (k ka : String) (v0 : String) (hf : firstValue h k = some v0) :
    firstValue (headerAddValues h ka vs) k = some v0 := by
  induction vs generalizing h with
  | nil => rw [headerAddValues]; exact hf
  | cons v rest ih =>
      rw [headerAddValues]
      exact ih _ (firstValue_headerAdd _ _ _ _ _ hf)

theorem firstValue_headerAddAll (extra h : List (String × List String)) (k v0 : String)
    (hf : firstValue h k = some v0) :
    firstValue (headerAddAll h extra) k = some v0 := by
  induction extra generalizing h with
  | nil => rw [headerAddAll]; exact hf
  | cons p rest ih =>
      obtain ⟨pk, pvs⟩ := p
      rw [headerAddAll]
      exact ih _ (firstValue_headerAddValues _ _ _ _ _ hf)

theorem mem_allValues_headerAdd (h : List (String × List String)) (k ka va v : String)
    (hv : v ∈ allValues h k) :
    v ∈ allValues (headerAdd h ka va) k := by
  induction h with
  | nil => simp [allValues] at hv
  | cons p t ih =>
      obtain ⟨pk, pvs⟩ := p
      rw [headerAdd]
      by_cases hpk : pk = ka
      · rw [if_pos hpk]
        rw [allValues] at hv ⊢
        by_cases hk : pk = k
        · rw [if_pos hk] at hv ⊢
          rcases List.mem_append.mp hv with h1 | h1
          · exact List.mem_append.mpr (Or.inl (List.mem_append.mpr (Or.inl h1)))
          · exact List.mem_append.mpr (Or.inr h1)
        · rw [if_neg hk] at hv ⊢; exact hv
      · rw [if_neg hpk]
        rw [allValues] at hv ⊢
        by_cases hk : pk = k
        · rw [if_pos hk] at hv ⊢
          rcases List.mem_append.mp hv with h1 | h1
          · exact List.mem_append.mpr (Or.inl h1)
          · exact List.mem_append.mpr (Or.inr (ih h1))
        · rw [if_neg hk] at hv ⊢; exact ih hv

theorem mem_allValues_headerAdd_self (h : List (String × List String)) (k v : String) :
    v ∈ allValues (headerAdd h k v) k := by
  induction h with
  | nil => simp [headerAdd, allValues]
  | cons p t ih =>
      obtain ⟨pk, pvs⟩ := p
      rw [headerAdd]
      by_cases hpk : pk = k
      · rw [if_pos hpk, allValues, if_pos hpk]; simp
      · rw [if_neg hpk, allValues, if_neg hpk]; exact ih

theorem mem_allValues_headerAddValues_of_mem (vs : List String)
    (h : List (String × List String)) (k ka v : String) (hv : v ∈ allValues h k) :
    v ∈ allValues (headerAddValues h ka vs) k := by
  induction vs generalizing h with
  | nil => rw [headerAddValues]; exact hv
  | cons w rest ih =>
      rw [headerAddValues]
      exact ih _ (mem_allValues_headerAdd _ _ _ _ _ hv)

theorem mem_allValues_headerAddValues_self (vs : List String)
    (h : List (String × List String)) (k v : String) (hv : v ∈ vs) :
    v ∈ allValues (headerAddValues h k vs) k := by
  induction vs generalizing h with
  | nil => cases hv
  | cons w rest ih =>
      rw [headerAddValues]
      rcases List.mem_cons.mp hv with h1 | h1
      · subst h1
        exact mem_allValues_headerAddValues_of_mem _ _ _ _ _
          (mem_allValues_headerAdd_self _ _ _)
      · exact ih _ h1

theorem mem_allValues_headerAddAll_of_mem (extra h : List (String × List String))
    (k v : String) (hv : v ∈ allValues h k) :
    v ∈ allValues (headerAddAll h extra) k := by
  induction extra generalizing h with
  | nil => rw [headerAddAll]; exact hv
  | cons p rest ih =>
      obtain ⟨pk, pvs⟩ := p
      rw [headerAddAll]
      exact ih _ (mem_allValues_headerAddValues_of_mem _ _ _ _ _ hv)

theorem mem_allValues_headerAddAll (extra h : List (String × List String))
    (k : String) (vs : List String) (v : String)
    (hin : (k, vs) ∈ extra) (hv : v ∈ vs) :
    v ∈ allValues (headerAddAll h extra) k := by
  induction extra generalizing h with
  | nil => cases hin
  | cons p rest ih =>
      obtain ⟨pk, pvs⟩ := p
      rw [headerAddAll]
      rcases List.mem_cons.mp hin with h1 | h1
      · injection h1 with e1 e2
        subst e1; subst e2
        exact mem_allValues_headerAddAll_of_mem _ _ _ _
          (mem_allValues_headerAddValues_self _ _ _ _ hv)
      · exact ih _ h1

theorem buildHeaders_base (ct : String) :
    headerSet (headerSet [] "Content-Type" ct) "Accept" "application/json; charset=utf-8"
      = [("Content-Type", [ct]), ("Accept", ["application/json; charset=utf-8"])] := by
  rw [headerSet, headerSet, if_neg (by decide), headerSet]

theorem buildHeaders_firstValues (ct : String) (extra : List (String × List String)) :
    firstValue (buildHeaders ct extra) "Content-Type" = some ct ∧
    firstValue (buildHeaders ct extra) "Accept"
      = some "application/json; charset=utf-8" := by
  rw [buildHeaders, buildHeaders_base]
  constructor
  · exact firstValue_headerAddAll _ _ _ _ (by rw [firstValue, if_pos rfl]; rfl)
  · exact firstValue_headerAddAll _ _ _ _
      (by rw [firstValue, if_neg (by decide), firstValue, if_pos rfl]; rfl)

theorem buildHeaders_custom (ct : String) (extra : List (String × List String))
    (k : String) (vs : List String) (v : String) (hin : (k, vs) ∈ extra) (hv : v ∈ vs) :
    v ∈ allValues (buildHeaders ct extra) k := by
  rw [buildHeaders]
  exact mem_allValues_headerAddAll _ _ _ _ _ hin hv

/-- Claim C7: every outgoing HTTP request of a Run call carries every custom
header value of the Request, and merging them never overrides the
client-set Content-Type and Accept header values, which remain the first
value of their keys: the headers are exactly the client-set pair followed
by additive merging of the caller headers. -/
theorem run_headers_additive (c : Client) (t : Transport) (b : String) (ctxDone : Bool)
    (req : Request) (r : HttpRequest) (hr : r ∈ (Run c t b ctxDone req).sent) :
    (∀ k vs v, (k, vs) ∈ req.Header → v ∈ vs → v ∈ allValues r.headers k) ∧
    firstValue r.headers "Accept" = some "application/json; charset=utf-8" ∧
    (∃ ct, firstValue r.headers "Content-Type" = some ct ∧
      r.headers = buildHeaders ct req.Header) := by
  have hket : ∃ ct, r.headers = buildHeaders ct req.Header := by
    cases ctxDone with
    | true => simp [Run] at hr
    | false =>
      cases hm : c.useMultipartForm with
      | true =>
          simp [Run, runWithPostFields, makeRequest, hm] at hr
          exact ⟨_, by rw [hr]⟩
      | false =>
        cases hs : c.useMultipartRequestSpec with
        | false =>
            cases hfe : req.files.isEmpty with
            | true =>
                simp [Run, runWithJSON, hm, hs, hfe] at hr
                exact ⟨_, by rw [hr]⟩
            | false => simp [Run, hm, hs, hfe] at hr
        | true =>
            cases hfe : req.files.isEmpty with
            | true =>
                simp [Run, runWithJSON, hm, hs, hfe] at hr
                exact ⟨_, by rw [hr]⟩
            | false =>
                cases hv : req.vars.isEmpty with
                | true =>
                    simp [Run, runMultipartRequestSpec, makeRequest, hm, hs, hfe, hv] at hr
                    exact ⟨_, by rw [hr]⟩
                | false =>
                    simp [Run, runMultipartRequestSpec, hm, hs, hfe, hv] at hr
  obtain ⟨ct, hct⟩ := hket
  refine ⟨?_, ?_, ct, ?_, hct⟩
  · intro k vs v hin hv
    rw [hct]
    exact buildHeaders_custom _ _ _ _ _ hin hv
  · rw [hct]; exact (buildHeaders_firstValues ct req.Header).2
  · rw [hct]; exact (buildHeaders_firstValues ct req.Header).1

/-- A request carrying one custom header and nothing else. -/
def hdrReq : Request := ⟨"q", [], [], [("X-Key", ["v1"])], none, ""⟩

/-- The outgoing request runWithJSON builds for hdrReq on noModeClient. -/
def jsonWireReq : HttpRequest :=
  ⟨"POST", "http://e", buildHeaders "application/json; charset=utf-8" [("X-Key", ["v1"])],
    some (WireBody.jsonBody "q" []), false⟩

/-- Witness for claim C7: the custom header value is on the outgoing request
and the Accept value set by the client is still the first Accept value. -/
theorem run_headers_additive_witness :
    "v1" ∈ allValues jsonWireReq.headers "X-Key" ∧
    firstValue jsonWireReq.headers "Accept" = some "application/json; charset=utf-8" := by
  have h := run_headers_additive noModeClient failTransport "b" false hdrReq jsonWireReq
    (List.mem_cons_self _ _)
  exact ⟨h.1 "X-Key" ["v1"] "v1" (by simp [hdrReq]) (by simp), h.2.1⟩

end GraphQL
